import Mathlib

/-!
Verification development for the `edc` repository: a shallow embedding of

* `conf` (runtime loader): `readFromConfigEnv`, `parseEnvConfig`, `patchMap`
  from the conf package, which overlay environment-variable overrides onto a
  YAML-derived mapping; and
* `cmd/conftext` (struct path deriver): `getYAMLTag`, `processField`,
  `processStructFields`, `EnvVar.Path`, which walk a Go struct declaration and
  derive environment-variable paths.

Go maps `map[string]any` are embedded as association lists with unique keys;
Go string operations act on rune (character) lists, which agrees with the
byte-level Go semantics on the ASCII data handled here. Code paths that panic
in Go (failed type assertions, nil pointer dereferences) are embedded as
`Option`-valued functions returning `none`.
-/

/-- A YAML-like value: the `any` in the conf package's `map[string]any`.
Scalars are the three shapes `parseEnvConfig` produces (int, bool, string);
`vMap` is a nested `map[string]any`, embedded as an association list. -/
inductive Value where
  | vInt : Int → Value
  | vBool : Bool → Value
  | vStr : String → Value
  | vMap : List (String × Value) → Value

/-- A `map[string]any` of the conf package: an association list with
(by construction) unique keys. -/
abbrev ConfigTree := List (String × Value)

namespace GoStrings

/-- Go `strings.Split(s, sep)` for a single-character separator, on rune
lists: `[]` yields `[[]]` just as `Split("", sep)` yields `[""]`. -/
def splitOnChar (c : Char) : List Char → List (List Char)
  | [] => [[]]
  | x :: rest =>
    if x = c then [] :: splitOnChar c rest
    else
      match splitOnChar c rest with
      | [] => [[x]]
      | h :: t => (x :: h) :: t

/-- Index of the first occurrence of substring `old` in `s` (Go
`strings.Index`), `none` when absent. `old = []` matches at index 0. -/
def indexOfSub : List Char → List Char → Option Nat
  | s, old =>
    if old.isPrefixOf s then some 0
    else
      match s with
      | [] => none
      | _ :: rest => (indexOfSub rest old).map (· + 1)

/-- Go `strings.Replace(s, old, new, 1)`: replace the first occurrence of
`old` by `new`; `s` unchanged when `old` does not occur. For `old = []` Go
inserts `new` before the first rune. -/
def replaceFirst (s old new : List Char) : List Char :=
  match indexOfSub s old with
  | none => s
  | some i => s.take i ++ new ++ s.drop (i + old.length)

/-- Go `strings.ToLower` (ASCII-relevant part). -/
def toLower (s : String) : String := String.mk (s.toList.map Char.toLower)

/-- Go `strings.ToUpper` (ASCII-relevant part). -/
def toUpper (s : String) : String := String.mk (s.toList.map Char.toUpper)

/-- Go `strings.HasPrefix`. -/
def hasPrefixOf (s pre : String) : Bool := pre.toList.isPrefixOf s.toList

/-- Go `strings.Trim(s, cutset)` for a single-character cutset: drop every
leading and trailing occurrence of `c`. -/
def trimChar (c : Char) (s : List Char) : List Char :=
  ((s.dropWhile (· = c)).reverse.dropWhile (· = c)).reverse

/-- Go `strings.TrimPrefix(s, "*")`: remove one leading `*` if present. -/
def trimStar (s : String) : String :=
  match s.toList with
  | '*' :: rest => String.mk rest
  | _ => s

end GoStrings

namespace GoStrconv

/-- Go `strconv.Atoi`: optional sign, at least one ASCII digit, nothing else,
and the signed value must fit in a 64-bit int; `none` is Go's error case. -/
def Atoi (s : String) : Option Int :=
  match s.toList with
  | [] => none
  | c :: rest =>
    let (neg, digits) :=
      if c = '-' then (true, rest)
      else if c = '+' then (false, rest)
      else (false, c :: rest)
    if digits = [] then none
    else if digits.all Char.isDigit then
      let n : Nat := digits.foldl (fun acc d => acc * 10 + (d.toNat - '0'.toNat)) 0
      let v : Int := if neg then -(n : Int) else (n : Int)
      if -(2 ^ 63) ≤ v ∧ v ≤ 2 ^ 63 - 1 then some v else none
    else none

/-- Go `strconv.ParseBool`: exactly the listed literals parse. -/
def ParseBool (s : String) : Option Bool :=
  if s = "1" ∨ s = "t" ∨ s = "T" ∨ s = "true" ∨ s = "TRUE" ∨ s = "True" then some true
  else if s = "0" ∨ s = "f" ∨ s = "F" ∨ s = "false" ∨ s = "FALSE" ∨ s = "False" then some false
  else none

end GoStrconv

namespace Conf

/-- Lookup in a `map[string]any` (`m[k]` with its `ok` flag). -/
def lookup : ConfigTree → String → Option Value
  | [], _ => none
  | (k', v') :: rest, k => if k' = k then some v' else lookup rest k

/-- Map assignment `m[k] = v`: replace the binding in place, or add it. -/
def insert : ConfigTree → String → Value → ConfigTree
  | [], k, v => [(k, v)]
  | (k', v') :: rest, k, v =>
    if k' = k then (k, v) :: rest else (k', v') :: insert rest k v

/-- Follow a chain of keys through nested maps to a value, as the final
YAML-decode step reads the leaf at a dotted path of the merged mapping. -/
def lookupPath : ConfigTree → List String → Option Value
  | _, [] => none
  | m, [k] => lookup m k
  | m, k :: rest =>
    match lookup m k with
    | some (.vMap sub) => lookupPath sub rest
    | _ => none

/-- The error of `patchMap`: `errors.Errorf("%s of %s is not a
map[string]any", k, p)`, carrying the offending key `k`. -/
inductive MergeError where
  | notAMap : String → MergeError

/-- Split a key at its first underscore (`strings.Index(key, "_")` plus the
two slices `key[:i]` and `key[i+1:]`); `none` when the index is -1. -/
def splitAtUnderscore : List Char → Option (List Char × List Char)
  | [] => none
  | c :: cs =>
    if c = '_' then some ([], cs)
    else
      match splitAtUnderscore cs with
      | none => none
      | some (a, b) => some (c :: a, b)

theorem splitAtUnderscore_length :
    ∀ {l a b : List Char}, splitAtUnderscore l = some (a, b) → b.length < l.length := by
  intro l
  induction l with
  | nil => intro a b h; simp [splitAtUnderscore] at h
  | cons c cs ih =>
    intro a b h
    by_cases hc : c = '_'
    · simp [splitAtUnderscore, hc] at h
      simp [← h.2]
    · simp [splitAtUnderscore, hc] at h
      cases hs : splitAtUnderscore cs with
      | none => rw [hs] at h; simp at h
      | some ab =>
        rw [hs] at h
        have := ih (a := ab.1) (b := ab.2) (by rw [hs])
        simp at h
        rw [← h.2]
        exact Nat.lt_succ_of_lt this

/-- The leaf coercion inlined in `parseEnvConfig`: `strconv.Atoi` first, then
`strconv.ParseBool`, else the raw string. -/
def coerceValue (value : String) : Value :=
  match GoStrconv.Atoi value with
  | some intVal => .vInt intVal
  | none =>
    match GoStrconv.ParseBool value with
    | some boolVal => .vBool boolVal
    | none => .vStr value

/-- `parseEnvConfig(curCfg, key, value)` on the key's rune list. A key with
no underscore stores the coerced value at that key. Otherwise the part before
the first underscore is the immediate key: a missing entry starts from a
fresh map, an entry that is a map is recursed into, and any other entry hits
the Go type assertion `curCfg[thisKey].(map[string]any)`, which panics —
embedded as `none`. -/
def parseEnvConfigAux (curCfg : ConfigTree) (key : List Char) (value : String) :
    Option ConfigTree :=
  match hs : splitAtUnderscore key with
  | none => some (insert curCfg (String.mk key) (coerceValue value))
  | some (thisKey, rest) =>
    match lookup curCfg (String.mk thisKey) with
    | none =>
      match parseEnvConfigAux [] rest value with
      | none => none
      | some sub => some (insert curCfg (String.mk thisKey) (.vMap sub))
    | some (.vMap m) =>
      match parseEnvConfigAux m rest value with
      | none => none
      | some sub => some (insert curCfg (String.mk thisKey) (.vMap sub))
    | some _ => none
termination_by key.length
decreasing_by
  all_goals exact splitAtUnderscore_length hs

/-- `parseEnvConfig` of the conf package, on `String` keys. -/
def parseEnvConfig (curCfg : ConfigTree) (key value : String) : Option ConfigTree :=
  parseEnvConfigAux curCfg key.toList value

/-- The key part of an environ entry `v`: `strings.Split(v, "=")[0]`. -/
def envKeyRaw (v : String) : String :=
  String.mk ((GoStrings.splitOnChar '=' v.toList).headD [])

/-- The key `readFromConfigEnv` hands to `parseEnvConfig`:
`strings.ToLower(strings.Replace(key, prefix, "", 1))` applied to the entry's
key part. Note only the prefix itself is removed, not a following `_`. -/
def envKeyOf (pfx v : String) : String :=
  GoStrings.toLower (String.mk (GoStrings.replaceFirst (envKeyRaw v).toList pfx.toList []))

/-- The value part of an environ entry `v`: `v[len(key)+1:]`. -/
def envValOf (v : String) : String := v.drop ((envKeyRaw v).length + 1)

/-- `readFromConfigEnv(prefix)` over an explicit snapshot of `os.Environ()`
(a list of `KEY=VALUE` strings, in scan order). `none` embeds a Go panic
raised by `parseEnvConfig`. -/
def readFromConfigEnv (pfx : String) (environ : List String) : Option ConfigTree :=
  environ.foldlM
    (fun envCfg v =>
      if GoStrings.hasPrefixOf v pfx then
        parseEnvConfig envCfg (envKeyOf pfx v) (envValOf v)
      else
        pure envCfg)
    []

/-- `patchMap(o, p)`: for each key of the patch `p`, an absent key is
inserted; a key whose base entry is a map requires the patch entry to be a
map too (else the named error) and is merged recursively; a key whose base
entry is not a map is overwritten. -/
def patchMap (o : ConfigTree) (p : ConfigTree) : Except MergeError ConfigTree :=
  match p with
  | [] => .ok o
  | (k, pv) :: rest =>
    match lookup o k with
    | none => patchMap (insert o k pv) rest
    | some ov =>
      match ov with
      | .vMap om =>
        match pv with
        | .vMap pm =>
          match patchMap om pm with
          | .error e => .error e
          | .ok merged => patchMap (insert o k (.vMap merged)) rest
        | _ => .error (.notAMap k)
      | _ => patchMap (insert o k pv) rest
termination_by sizeOf p

/-- `readConfigFromPathAndEnv` after the file read: build the environment
overlay with `readFromConfigEnv`, then `patchConfigMap(configEnv, config)`,
i.e. `patchMap(config, configEnv)`. `none` embeds a panic during the
environment scan; `Except` carries the merge error. -/
def mergeEnvIntoFile (fileCfg : ConfigTree) (pfx : String) (environ : List String) :
    Option (Except MergeError ConfigTree) :=
  match readFromConfigEnv pfx environ with
  | none => none
  | some envCfg => some (patchMap fileCfg envCfg)

end Conf

namespace Conftext

mutual
/-- The shapes of `ast.Expr` that `processStructFields` distinguishes.
`ident name decl` is an `*ast.Ident` whose `Obj`, when non-nil and declaring
a type (`TypeSpec`), carries that declaration's type as `some decl`;
`star` is `*ast.StarExpr`, `selector` is `*ast.SelectorExpr` (package-
qualified name), `structType` is `*ast.StructType` with its field list. -/
inductive GoType where
  | ident : String → Option GoType → GoType
  | star : GoType → GoType
  | selector : String → String → GoType
  | structType : List GoField → GoType

/-- `GoField` is an `*ast.Field`: first declared name (`none` for an
embedded field, i.e. `Names == nil`), raw tag literal (`none` when `Tag` is
a nil pointer), type, and the joined doc comment. -/
inductive GoField where
  | mk : Option String → Option String → GoType → String → GoField
end

/-- `Field` of cmd/conftext: external name, type string, doc comment. -/
structure Field where
  Name : String
  Typ : String
  Comment : String

/-- `EnvVar` of cmd/conftext: the chain of fields from the root. -/
structure EnvVar where
  Chain : List Field

/-- `EnvVar.Path()`: optional prefix plus every chain segment, joined with
underscores and upper-cased. The Go method reads the package-level `prefix`
flag; here it is a parameter. -/
def EnvVar.Path (pfx : String) (e : EnvVar) : String :=
  GoStrings.toUpper
    (String.intercalate "_" ((if pfx = "" then [] else [pfx]) ++ e.Chain.map Field.Name))

/-- `EnvVar.YAMLPath()`: chain segments joined with dots. -/
def EnvVar.YAMLPath (e : EnvVar) : String :=
  String.intercalate "." (e.Chain.map Field.Name)

/-- `isPrimitiveType`: string/int/bool, after trimming one leading `*`. -/
def isPrimitiveType (typeStr : String) : Bool :=
  let b := GoStrings.trimStar typeStr
  b = "string" || b = "int" || b = "bool"

/-- The backtick character delimiting Go struct tag literals. -/
def backtickChar : Char := Char.ofNat 96

/-- A raw Go tag literal: the tag text wrapped in backticks, as
`field.Tag.Value` holds it. -/
def goTag (s : String) : String :=
  String.mk (backtickChar :: s.toList ++ [backtickChar])

/-- The loop body of `getYAMLTag`: first space-separated part starting with
`yaml:` yields `strings.Split(part, ":")[1]` trimmed of double quotes, then
its first comma-separated component; otherwise `""`. -/
def getYAMLTagFind : List (List Char) → String
  | [] => ""
  | part :: rest =>
    if GoStrings.hasPrefixOf (String.mk part) "yaml:" then
      let content := GoStrings.trimChar '"' ((GoStrings.splitOnChar ':' part).getD 1 [])
      String.mk ((GoStrings.splitOnChar ',' content).headD [])
    else getYAMLTagFind rest

/-- `getYAMLTag`: extract the yaml tag value from a raw field tag literal. -/
def getYAMLTag (tag : String) : String :=
  if tag = "" then ""
  else getYAMLTagFind (GoStrings.splitOnChar ' ' (GoStrings.trimChar backtickChar tag.toList))

/-- `getTypeString`: render the type expression; the default case is Go's
`fmt.Sprintf("%T", expr)`, which for the remaining shape prints the dynamic
type name. -/
def getTypeString : GoType → String
  | .ident name _ => name
  | .star t => "*" ++ getTypeString t
  | .selector x sel => x ++ "." ++ sel
  | .structType _ => "*ast.StructType"

mutual

/-- `processStructFields`: emit an `EnvVar` for a primitive ident, descend
into a locally-declared struct type behind an ident, descend through a
pointer (emitting directly when the pointee renders as primitive), emit for
a selector (opaque external type), and walk a literal struct type's fields.
All other cases emit nothing. The Go version appends into `*vars`; here the
emitted list is returned, `none` embedding a panic below. -/
def processStructFields (t : GoType) (chain : List Field) : Option (List EnvVar) :=
  match t with
  | .ident name decl =>
    if isPrimitiveType name then some [⟨chain⟩]
    else
      match decl with
      | some (.structType fields) => processFieldList fields chain
      | _ => some []
  | .star inner =>
    if isPrimitiveType (getTypeString inner) then some [⟨chain⟩]
    else processStructFields inner chain
  | .selector _ _ => some [⟨chain⟩]
  | .structType fields => processFieldList fields chain

/-- The `for _, f := range st.Fields.List` loops of cmd/conftext, collecting
the emitted `EnvVar`s in declaration order. -/
def processFieldList (fields : List GoField) (chain : List Field) : Option (List EnvVar) :=
  match fields with
  | [] => some []
  | f :: rest =>
    match processField f chain with
    | none => none
    | some vs =>
      match processFieldList rest chain with
      | none => none
      | some vs' => some (vs ++ vs')

/-- `processField`: an unnamed (embedded) field descends without adding a
segment. A named field reads `field.Tag.Value` — when `Tag` is nil this is a
nil-pointer dereference, a Go runtime panic, embedded as `none` — then uses
the yaml tag, falling back to the lower-cased field name when the tag yields
nothing, and extends the chain. -/
def processField (f : GoField) (parentChain : List Field) : Option (List EnvVar) :=
  match f with
  | .mk names tag ftype doc =>
    match names with
    | none => processStructFields ftype parentChain
    | some fname =>
      match tag with
      | none => none
      | some tagVal =>
        let yamlTag := getYAMLTag tagVal
        let fieldName := if yamlTag = "" then GoStrings.toLower fname else yamlTag
        processStructFields ftype (parentChain ++ [⟨fieldName, getTypeString ftype, doc⟩])

end

/-- The `Database` struct of the sample source file: two tagged primitive
fields with doc comments. -/
def databaseFields : List GoField :=
  [.mk (some "Host") (some (goTag "yaml:\"host,omitempty\"")) (.ident "string" none)
      "Host is the database server hostname",
   .mk (some "Port") (some (goTag "yaml:\"port\"")) (.ident "int" none)
      "Port is the database server port number"]

/-- The empty `Cache` struct of the sample source file. -/
def cacheFields : List GoField := []

/-- The `Config` struct of the sample source file: a nested `Database`
section, a primitive `Port`, and a `*Cache` pointer to an empty struct. -/
def configFields : List GoField :=
  [.mk (some "Database") (some (goTag "yaml:\"database\""))
      (.ident "Database" (some (.structType databaseFields))) "Database configuration section",
   .mk (some "Port") (some (goTag "yaml:\"port\"")) (.ident "int" none) "",
   .mk (some "Cache") (some (goTag "yaml:\"cache\""))
      (.star (.ident "Cache" (some (.structType cacheFields)))) ""]

/-- The deriver's main loop over the located struct's fields, starting from
an empty chain. -/
def deriveEnvVars (fields : List GoField) : Option (List EnvVar) :=
  processFieldList fields []

end Conftext

namespace Conf

/-- Spec-side description of the key-splitting convention, following the
spec's words: "purely left-to-right, greedy single-underscore splitting: the
substring before the first underscore becomes the immediate key; recurse on
the remainder after that underscore". Used to compare `parseEnvConfig`
against the spec's declarative reading. -/
def splitKeySpec (key : List Char) : List String :=
  match hs : splitAtUnderscore key with
  | none => [String.mk key]
  | some (a, b) => String.mk a :: splitKeySpec b
termination_by key.length
decreasing_by
  all_goals exact splitAtUnderscore_length hs

/-- Spec-side nested singleton mapping: the tree holding exactly one leaf
`v` at the end of the given chain of keys. -/
def nestSingleton : List String → Value → ConfigTree
  | [], _ => []
  | [k], v => [(k, v)]
  | k :: k2 :: rest, v => [(k, Value.vMap (nestSingleton (k2 :: rest) v))]

/-! Equation lemmas for `parseEnvConfigAux`, one per shape of the key and of
the entry found at the first segment. -/

theorem parseEnvConfigAux_eq_none (cfg : ConfigTree) (key : List Char) (value : String)
    (h : splitAtUnderscore key = none) :
    parseEnvConfigAux cfg key value = some (insert cfg (String.mk key) (coerceValue value)) := by
  rw [parseEnvConfigAux.eq_def]
  split
  · rfl
  · rename_i hs; rw [h] at hs; cases hs

theorem parseEnvConfigAux_eq_some (cfg : ConfigTree) (key a b : List Char) (value : String)
    (h : splitAtUnderscore key = some (a, b)) :
    parseEnvConfigAux cfg key value =
      match lookup cfg (String.mk a) with
      | none =>
        match parseEnvConfigAux [] b value with
        | none => none
        | some sub => some (insert cfg (String.mk a) (.vMap sub))
      | some (.vMap m) =>
        match parseEnvConfigAux m b value with
        | none => none
        | some sub => some (insert cfg (String.mk a) (.vMap sub))
      | some _ => none := by
  rw [parseEnvConfigAux.eq_def]
  split
  · rename_i hs; rw [h] at hs; cases hs
  · rename_i thisKey rest hs
    rw [h] at hs
    injection hs with h1
    injection h1 with h1 h2
    subst h1; subst h2
    rfl

theorem parseEnvConfigAux_step_fresh (cfg : ConfigTree) (key a b : List Char) (value : String)
    (h : splitAtUnderscore key = some (a, b)) (hl : lookup cfg (String.mk a) = none) :
    parseEnvConfigAux cfg key value =
      (parseEnvConfigAux [] b value).map (fun sub => insert cfg (String.mk a) (.vMap sub)) := by
  rw [parseEnvConfigAux_eq_some cfg key a b value h, hl]
  cases parseEnvConfigAux [] b value <;> rfl

theorem parseEnvConfigAux_step_map (cfg : ConfigTree) (key a b : List Char) (value : String)
    (m : List (String × Value))
    (h : splitAtUnderscore key = some (a, b)) (hl : lookup cfg (String.mk a) = some (.vMap m)) :
    parseEnvConfigAux cfg key value =
      (parseEnvConfigAux m b value).map (fun sub => insert cfg (String.mk a) (.vMap sub)) := by
  rw [parseEnvConfigAux_eq_some cfg key a b value h, hl]
  show (match parseEnvConfigAux m b value with
        | none => none
        | some sub => some (insert cfg (String.mk a) (.vMap sub)))
      = (parseEnvConfigAux m b value).map (fun sub => insert cfg (String.mk a) (.vMap sub))
  cases parseEnvConfigAux m b value <;> rfl

theorem parseEnvConfigAux_step_scalar (cfg : ConfigTree) (key a b : List Char) (value : String)
    (w : Value)
    (h : splitAtUnderscore key = some (a, b)) (hl : lookup cfg (String.mk a) = some w)
    (hw : ∀ m, w ≠ .vMap m) :
    parseEnvConfigAux cfg key value = none := by
  rw [parseEnvConfigAux_eq_some cfg key a b value h, hl]
  cases w with
  | vMap m => exact absurd rfl (hw m)
  | vInt n => rfl
  | vBool b' => rfl
  | vStr s => rfl

/-! Equation lemmas for `patchMap`, one per shape of the base entry at the
first patch key. -/

theorem patchMap_cons_absent (o : ConfigTree) (k : String) (pv : Value) (rest : ConfigTree)
    (hl : lookup o k = none) :
    patchMap o ((k, pv) :: rest) = patchMap (insert o k pv) rest := by
  rw [patchMap.eq_def]
  simp only [hl]

theorem patchMap_cons_scalar (o : ConfigTree) (k : String) (w pv : Value) (rest : ConfigTree)
    (hl : lookup o k = some w) (hw : ∀ m, w ≠ .vMap m) :
    patchMap o ((k, pv) :: rest) = patchMap (insert o k pv) rest := by
  rw [patchMap.eq_def]
  simp only [hl]

theorem patchMap_cons_conflict (o : ConfigTree) (k : String) (om : List (String × Value))
    (pv : Value) (rest : ConfigTree) (hl : lookup o k = some (.vMap om))
    (hpv : ∀ pm, pv ≠ .vMap pm) :
    patchMap o ((k, pv) :: rest) = .error (.notAMap k) := by
  rw [patchMap.eq_def]
  simp only [hl]

theorem patchMap_cons_merge (o : ConfigTree) (k : String) (om pm : List (String × Value))
    (rest : ConfigTree) (hl : lookup o k = some (.vMap om)) :
    patchMap o ((k, .vMap pm) :: rest) =
      match patchMap om pm with
      | .error e => .error e
      | .ok merged => patchMap (insert o k (.vMap merged)) rest := by
  rw [patchMap.eq_def]
  simp only [hl]

/-! Equation lemmas for `splitKeySpec`, and the characterisation of
`parseEnvConfigAux` on a fresh map as a nested singleton along the split. -/

theorem splitKeySpec_eq_none (key : List Char) (h : splitAtUnderscore key = none) :
    splitKeySpec key = [String.mk key] := by
  rw [splitKeySpec.eq_def]
  split
  · rfl
  · rename_i hs; rw [h] at hs; cases hs

theorem splitKeySpec_eq_some (key a b : List Char) (h : splitAtUnderscore key = some (a, b)) :
    splitKeySpec key = String.mk a :: splitKeySpec b := by
  rw [splitKeySpec.eq_def]
  split
  · rename_i hs; rw [h] at hs; cases hs
  · rename_i a' b' hs
    rw [h] at hs
    injection hs with h1
    injection h1 with h1 h2
    subst h1; subst h2
    rfl

theorem splitKeySpec_ne_nil (key : List Char) : splitKeySpec key ≠ [] := by
  cases hs : splitAtUnderscore key with
  | none => rw [splitKeySpec_eq_none key hs]; simp
  | some ab => rw [splitKeySpec_eq_some key ab.1 ab.2 (by rw [hs])]; simp

theorem parseEnvConfigAux_nil_nest : ∀ (n : Nat) (key : List Char), key.length ≤ n →
    ∀ value : String,
    parseEnvConfigAux [] key value
      = some (nestSingleton (splitKeySpec key) (coerceValue value)) := by
  intro n
  induction n with
  | zero =>
    intro key hk value
    have hkey : key = [] := List.length_eq_zero.mp (Nat.le_zero.mp hk)
    subst hkey
    rw [parseEnvConfigAux_eq_none [] [] value rfl, splitKeySpec_eq_none [] rfl]
    rfl
  | succ n ih =>
    intro key hk value
    cases hs : splitAtUnderscore key with
    | none =>
      rw [parseEnvConfigAux_eq_none [] key value hs, splitKeySpec_eq_none key hs]
      rfl
    | some ab =>
      obtain ⟨a, b⟩ := ab
      have hb : b.length ≤ n :=
        Nat.lt_succ_iff.mp (Nat.lt_of_lt_of_le (splitAtUnderscore_length hs) hk)
      rw [parseEnvConfigAux_step_fresh [] key a b value hs rfl, ih b hb value,
        splitKeySpec_eq_some key a b hs]
      cases hq : splitKeySpec b with
      | nil => exact absurd hq (splitKeySpec_ne_nil b)
      | cons q qs => rfl

end Conf

/-! ### Claim theorems -/

/-- Claim C9: merging an empty environment overlay into any file-derived
mapping returns without error and leaves the base mapping exactly unchanged
(empty overlay is a left identity for `patchMap`). -/
theorem patchMap_empty_overlay (o : ConfigTree) : Conf.patchMap o [] = .ok o := by
  rw [Conf.patchMap.eq_def]

/-- Claim C9, witness: the empty-overlay identity at a concrete mapping. -/
theorem patchMap_empty_overlay_witness :
    Conf.patchMap [("a", Value.vMap [("b", Value.vInt 1)])] [] =
      .ok [("a", Value.vMap [("b", Value.vInt 1)])] :=
  patchMap_empty_overlay [("a", Value.vMap [("b", Value.vInt 1)])]

/-- Claim C3 (amended): at a key held by both mappings, `patchMap` fails only
in one direction — a nested mapping in the base overlaid by a scalar is the
error; a scalar in the base overlaid by anything (a nested mapping included)
is overwritten without error. -/
theorem patchMap_conflict_one_direction (o : ConfigTree) (k : String) (pv : Value) :
    (∀ om : List (String × Value), Conf.lookup o k = some (.vMap om) →
        (∀ pm, pv ≠ Value.vMap pm) →
        Conf.patchMap o [(k, pv)] = .error (.notAMap k))
  ∧ (∀ w : Value, Conf.lookup o k = some w → (∀ m, w ≠ Value.vMap m) →
        Conf.patchMap o [(k, pv)] = .ok (Conf.insert o k pv)) := by
  constructor
  · intro om hl hpv
    exact Conf.patchMap_cons_conflict o k om pv [] hl hpv
  · intro w hl hw
    rw [Conf.patchMap_cons_scalar o k w pv [] hl hw, Conf.patchMap.eq_def]

/-- Claim C3, counterexample to the claim as stated: a scalar in the base
(file) overlaid by a nested mapping (environment) does NOT make the merge
fail — the overlay mapping silently replaces the scalar. -/
theorem patchMap_scalar_base_subtree_overlay_no_error :
    Conf.patchMap [("a", Value.vInt 1)] [("a", Value.vMap [("b", Value.vInt 2)])]
      = .ok [("a", Value.vMap [("b", Value.vInt 2)])] := by
  simp [Conf.patchMap, Conf.lookup, Conf.insert]

/-- Claim C3, witness: the amended theorem applied at concrete inputs. -/
theorem patchMap_conflict_one_direction_witness :
    Conf.patchMap [("a", Value.vMap [("b", Value.vInt 1)])] [("a", Value.vInt 5)]
      = .error (.notAMap "a")
  ∧ Conf.patchMap [("x", Value.vInt 1)] [("x", Value.vMap [("y", Value.vInt 2)])]
      = .ok [("x", Value.vMap [("y", Value.vInt 2)])] := by
  constructor
  · exact (patchMap_conflict_one_direction [("a", Value.vMap [("b", Value.vInt 1)])] "a"
      (Value.vInt 5)).1 [("b", Value.vInt 1)] rfl (fun pm h => Value.noConfusion h)
  · exact ((patchMap_conflict_one_direction [("x", Value.vInt 1)] "x"
      (Value.vMap [("y", Value.vInt 2)])).2 (Value.vInt 1) rfl
      (fun m h => Value.noConfusion h)).trans rfl

/-- Claim C4: at a key held by both mappings where the base (file) side is a
nested mapping and the overlay (environment) side a scalar, `patchMap` fails
with the type-mismatch error carrying the offending key; scalar over scalar,
and a key absent from the base, insert the overlay value without error. -/
theorem patchMap_subtree_scalar_conflict (o : ConfigTree) (k : String) (pv : Value) :
    (∀ om : List (String × Value), Conf.lookup o k = some (.vMap om) →
        (∀ pm, pv ≠ Value.vMap pm) →
        Conf.patchMap o [(k, pv)] = .error (.notAMap k))
  ∧ (∀ w : Value, Conf.lookup o k = some w → (∀ m, w ≠ Value.vMap m) →
        (∀ m, pv ≠ Value.vMap m) →
        Conf.patchMap o [(k, pv)] = .ok (Conf.insert o k pv))
  ∧ (Conf.lookup o k = none → Conf.patchMap o [(k, pv)] = .ok (Conf.insert o k pv)) := by
  refine ⟨?_, ?_, ?_⟩
  · intro om hl hpv
    exact Conf.patchMap_cons_conflict o k om pv [] hl hpv
  · intro w hl hw _
    rw [Conf.patchMap_cons_scalar o k w pv [] hl hw, Conf.patchMap.eq_def]
  · intro hl
    rw [Conf.patchMap_cons_absent o k pv [] hl, Conf.patchMap.eq_def]

/-- Claim C4, witness: the theorem applied at concrete inputs — a conflict
naming the key, a scalar/scalar overwrite, and an insertion at a fresh
key. -/
theorem patchMap_subtree_scalar_conflict_witness :
    Conf.patchMap [("db", Value.vMap [("host", Value.vStr "x")])] [("db", Value.vStr "y")]
      = .error (.notAMap "db")
  ∧ Conf.patchMap [("port", Value.vInt 1)] [("port", Value.vInt 2)]
      = .ok [("port", Value.vInt 2)]
  ∧ Conf.patchMap [("port", Value.vInt 1)] [("host", Value.vStr "h")]
      = .ok [("port", Value.vInt 1), ("host", Value.vStr "h")] := by
  refine ⟨?_, ?_, ?_⟩
  · exact (patchMap_subtree_scalar_conflict [("db", Value.vMap [("host", Value.vStr "x")])]
      "db" (Value.vStr "y")).1 [("host", Value.vStr "x")] rfl (fun pm h => Value.noConfusion h)
  · exact ((patchMap_subtree_scalar_conflict [("port", Value.vInt 1)] "port"
      (Value.vInt 2)).2.1 (Value.vInt 1) rfl (fun m h => Value.noConfusion h)
      (fun m h => Value.noConfusion h)).trans rfl
  · exact ((patchMap_subtree_scalar_conflict [("port", Value.vInt 1)] "host"
      (Value.vStr "h")).2.2 rfl).trans rfl

/-- Claim C7: the leaf stored for an underscore-free key is the coerced
value; the coercion tries `strconv.Atoi` first, then `strconv.ParseBool`,
and otherwise keeps the raw string; in particular "42" becomes the integer
42, "true" the boolean true, and "hello" the string "hello". -/
theorem parseEnvConfig_type_coercion :
    (∀ s n, GoStrconv.Atoi s = some n → Conf.coerceValue s = Value.vInt n)
  ∧ (∀ s b, GoStrconv.Atoi s = none → GoStrconv.ParseBool s = some b →
        Conf.coerceValue s = Value.vBool b)
  ∧ (∀ s, GoStrconv.Atoi s = none → GoStrconv.ParseBool s = none →
        Conf.coerceValue s = Value.vStr s)
  ∧ (∀ (cfg : ConfigTree) (key value : String), Conf.splitAtUnderscore key.toList = none →
        Conf.parseEnvConfig cfg key value
          = some (Conf.insert cfg key (Conf.coerceValue value)))
  ∧ Conf.coerceValue "42" = Value.vInt 42
  ∧ Conf.coerceValue "true" = Value.vBool true
  ∧ Conf.coerceValue "hello" = Value.vStr "hello" := by
  refine ⟨?_, ?_, ?_, ?_, rfl, rfl, rfl⟩
  · intro s n h
    simp only [Conf.coerceValue, h]
  · intro s b h1 h2
    simp only [Conf.coerceValue, h1, h2]
  · intro s h1 h2
    simp only [Conf.coerceValue, h1, h2]
  · intro cfg key value h
    exact Conf.parseEnvConfigAux_eq_none cfg key.toList value h

/-- Claim C7, witness: the coercion conjuncts applied at concrete values. -/
theorem parseEnvConfig_type_coercion_witness :
    GoStrconv.Atoi "8080" = some 8080
  ∧ Conf.coerceValue "8080" = Value.vInt 8080
  ∧ GoStrconv.Atoi "on" = none
  ∧ GoStrconv.ParseBool "on" = none
  ∧ Conf.coerceValue "on" = Value.vStr "on"
  ∧ Conf.parseEnvConfig [] "port" "8080" = some [("port", Value.vInt 8080)] :=
  ⟨rfl, parseEnvConfig_type_coercion.1 "8080" 8080 rfl, rfl, rfl,
    parseEnvConfig_type_coercion.2.2.1 "on" rfl rfl,
    (parseEnvConfig_type_coercion.2.2.2.1 [] "port" "8080" rfl).trans rfl⟩

/-- Claim C8: a key without underscore stores the (coerced) value as a leaf
at that key; a key with an underscore splits at the first underscore, the
front part becoming the immediate map key and the construction recursing on
the remainder (into a fresh map or the existing submap); consequently, on a
fresh map the result is the nested singleton along the greedy left-to-right
underscore split of the key. -/
theorem parseEnvConfig_underscore_split :
    (∀ (cfg : ConfigTree) (key value : String), Conf.splitAtUnderscore key.toList = none →
        Conf.parseEnvConfig cfg key value
          = some (Conf.insert cfg key (Conf.coerceValue value)))
  ∧ (∀ (cfg : ConfigTree) (key value : String) (a b : List Char),
        Conf.splitAtUnderscore key.toList = some (a, b) →
        Conf.lookup cfg (String.mk a) = none →
        Conf.parseEnvConfig cfg key value
          = (Conf.parseEnvConfig [] (String.mk b) value).map
              (fun sub => Conf.insert cfg (String.mk a) (Value.vMap sub)))
  ∧ (∀ (cfg : ConfigTree) (key value : String) (a b : List Char)
        (m : List (String × Value)),
        Conf.splitAtUnderscore key.toList = some (a, b) →
        Conf.lookup cfg (String.mk a) = some (Value.vMap m) →
        Conf.parseEnvConfig cfg key value
          = (Conf.parseEnvConfig m (String.mk b) value).map
              (fun sub => Conf.insert cfg (String.mk a) (Value.vMap sub)))
  ∧ (∀ (key value : String),
        Conf.parseEnvConfig [] key value
          = some (Conf.nestSingleton (Conf.splitKeySpec key.toList)
              (Conf.coerceValue value))) := by
  refine ⟨?_, ?_, ?_, ?_⟩
  · intro cfg key value h
    exact Conf.parseEnvConfigAux_eq_none cfg key.toList value h
  · intro cfg key value a b h hl
    exact Conf.parseEnvConfigAux_step_fresh cfg key.toList a b value h hl
  · intro cfg key value a b m h hl
    exact Conf.parseEnvConfigAux_step_map cfg key.toList a b value m h hl
  · intro key value
    exact Conf.parseEnvConfigAux_nil_nest key.toList.length key.toList (Nat.le_refl _) value

/-- Claim C8, witness: the splitting conjuncts applied at concrete keys. -/
theorem parseEnvConfig_underscore_split_witness :
    Conf.parseEnvConfig [] "level" "INFO" = some [("level", Value.vStr "INFO")]
  ∧ Conf.parseEnvConfig [] "log_level" "INFO"
      = some [("log", Value.vMap [("level", Value.vStr "INFO")])] := by
  have h1 := parseEnvConfig_underscore_split.1 [] "level" "INFO" rfl
  have h2 := parseEnvConfig_underscore_split.2.1 [] "log_level" "INFO"
    "log".toList "level".toList rfl rfl
  refine ⟨h1.trans rfl, ?_⟩
  rw [h2, show Conf.parseEnvConfig [] (String.mk "level".toList) "INFO"
      = some [("level", Value.vStr "INFO")] from h1.trans rfl]
  rfl

/-- Claim C10: with two prefixed variables where a scalar path is set first
and then extended (`CFG_A=1` before `CFG_A_B=2`), the environment scan hits
the failed type assertion in `parseEnvConfig` — a panic (`none`), not an
error value. -/
theorem readFromConfigEnv_panics_on_extension :
    Conf.readFromConfigEnv "CFG" ["CFG_A=1", "CFG_A_B=2"] = none := by
  have i1 : Conf.parseEnvConfigAux [] ['a'] "1" = some [("a", Value.vInt 1)] :=
    (Conf.parseEnvConfigAux_eq_none [] ['a'] "1" rfl).trans rfl
  have g1 : Conf.parseEnvConfigAux [] ['_', 'a'] "1"
      = some [("", Value.vMap [("a", Value.vInt 1)])] := by
    rw [Conf.parseEnvConfigAux_step_fresh [] ['_', 'a'] [] ['a'] "1" rfl rfl, i1]; rfl
  have i2 : Conf.parseEnvConfigAux [("a", Value.vInt 1)] ['a', '_', 'b'] "2" = none :=
    Conf.parseEnvConfigAux_step_scalar [("a", Value.vInt 1)] ['a', '_', 'b'] ['a'] ['b'] "2"
      (Value.vInt 1) rfl rfl (fun m h => Value.noConfusion h)
  have g2 : Conf.parseEnvConfigAux [("", Value.vMap [("a", Value.vInt 1)])]
      ['_', 'a', '_', 'b'] "2" = none := by
    rw [Conf.parseEnvConfigAux_step_map [("", Value.vMap [("a", Value.vInt 1)])]
      ['_', 'a', '_', 'b'] [] ['a', '_', 'b'] "2" [("a", Value.vInt 1)] rfl rfl, i2]
    rfl
  have e0 : Conf.envKeyOf "CFG" "CFG_A=1" = "_a" := rfl
  have e1 : Conf.envKeyOf "CFG" "CFG_A_B=2" = "_a_b" := rfl
  have e2 : Conf.envValOf "CFG_A=1" = "1" := rfl
  have e3 : Conf.envValOf "CFG_A_B=2" = "2" := rfl
  have e5 : GoStrings.hasPrefixOf "CFG_A=1" "CFG" = true := rfl
  have e6 : GoStrings.hasPrefixOf "CFG_A_B=2" "CFG" = true := rfl
  simp [Conf.readFromConfigEnv, Conf.parseEnvConfig, e0, e1, e2, e3, e5, e6, g1, g2]

/-- Claim C2, counter-evaluation: `readFromConfigEnv` strips only the prefix
itself (`strings.Replace(key, prefix, "", 1)`), not the following separator,
so for prefix `P` the variable `P_A_B=2` yields the key `"_a_b"` — with a
leading underscore — rather than the claimed `"a_b"`. -/
theorem envKeyOf_keeps_separator :
    Conf.envKeyOf "P" "P_A_B=2" = "_a_b" ∧ "_a_b" ≠ "a_b" :=
  ⟨rfl, by decide⟩

/-- Claim C1, counter-evaluation: because the separator after the prefix is
not stripped, the overlay nests everything under the empty key `""`; merging
leaves the file value at `a.b` untouched (still 1, not the claimed 2) and
places the environment value under `"".a.b`; untouched file leaves such as
`a.c` do keep their values. -/
theorem mergeEnvIntoFile_env_override_lost :
    Conf.mergeEnvIntoFile [("a", .vMap [("b", .vInt 1)])] "PREFIX" ["PREFIX_A_B=2"]
      = some (.ok [("a", Value.vMap [("b", Value.vInt 1)]),
          ("", Value.vMap [("a", Value.vMap [("b", Value.vInt 2)])])])
  ∧ Conf.lookupPath [("a", Value.vMap [("b", Value.vInt 1)]),
        ("", Value.vMap [("a", Value.vMap [("b", Value.vInt 2)])])] ["a", "b"]
      = some (Value.vInt 1)
  ∧ Conf.lookupPath [("a", Value.vMap [("b", Value.vInt 1)]),
        ("", Value.vMap [("a", Value.vMap [("b", Value.vInt 2)])])] ["", "a", "b"]
      = some (Value.vInt 2)
  ∧ Conf.mergeEnvIntoFile [("a", .vMap [("b", .vInt 1), ("c", .vInt 2)])] "PREFIX"
        ["PREFIX_A_B=9"]
      = some (.ok [("a", Value.vMap [("b", Value.vInt 1), ("c", Value.vInt 2)]),
          ("", Value.vMap [("a", Value.vMap [("b", Value.vInt 9)])])])
  ∧ Conf.lookupPath [("a", Value.vMap [("b", Value.vInt 1), ("c", Value.vInt 2)]),
        ("", Value.vMap [("a", Value.vMap [("b", Value.vInt 9)])])] ["a", "c"]
      = some (Value.vInt 2) := by
  have i2 : Conf.parseEnvConfigAux [] ['b'] "2" = some [("b", Value.vInt 2)] :=
    (Conf.parseEnvConfigAux_eq_none [] ['b'] "2" rfl).trans rfl
  have i1 : Conf.parseEnvConfigAux [] ['a', '_', 'b'] "2"
      = some [("a", Value.vMap [("b", Value.vInt 2)])] := by
    rw [Conf.parseEnvConfigAux_step_fresh [] ['a', '_', 'b'] ['a'] ['b'] "2" rfl rfl, i2]; rfl
  have g1 : Conf.parseEnvConfigAux [] ['_', 'a', '_', 'b'] "2"
      = some [("", Value.vMap [("a", Value.vMap [("b", Value.vInt 2)])])] := by
    rw [Conf.parseEnvConfigAux_step_fresh [] ['_', 'a', '_', 'b'] [] ['a', '_', 'b'] "2"
      rfl rfl, i1]
    rfl
  have j2 : Conf.parseEnvConfigAux [] ['b'] "9" = some [("b", Value.vInt 9)] :=
    (Conf.parseEnvConfigAux_eq_none [] ['b'] "9" rfl).trans rfl
  have j1 : Conf.parseEnvConfigAux [] ['a', '_', 'b'] "9"
      = some [("a", Value.vMap [("b", Value.vInt 9)])] := by
    rw [Conf.parseEnvConfigAux_step_fresh [] ['a', '_', 'b'] ['a'] ['b'] "9" rfl rfl, j2]; rfl
  have g2 : Conf.parseEnvConfigAux [] ['_', 'a', '_', 'b'] "9"
      = some [("", Value.vMap [("a", Value.vMap [("b", Value.vInt 9)])])] := by
    rw [Conf.parseEnvConfigAux_step_fresh [] ['_', 'a', '_', 'b'] [] ['a', '_', 'b'] "9"
      rfl rfl, j1]
    rfl
  have e0 : Conf.envKeyOf "PREFIX" "PREFIX_A_B=2" = "_a_b" := rfl
  have e1 : Conf.envValOf "PREFIX_A_B=2" = "2" := rfl
  have e2 : GoStrings.hasPrefixOf "PREFIX_A_B=2" "PREFIX" = true := rfl
  have f0 : Conf.envKeyOf "PREFIX" "PREFIX_A_B=9" = "_a_b" := rfl
  have f1 : Conf.envValOf "PREFIX_A_B=9" = "9" := rfl
  have f2 : GoStrings.hasPrefixOf "PREFIX_A_B=9" "PREFIX" = true := rfl
  refine ⟨?_, rfl, rfl, ?_, rfl⟩
  · simp [Conf.mergeEnvIntoFile, Conf.readFromConfigEnv, Conf.parseEnvConfig, e0, e1, e2, g1,
      Conf.patchMap, Conf.lookup, Conf.insert]
  · simp [Conf.mergeEnvIntoFile, Conf.readFromConfigEnv, Conf.parseEnvConfig, f0, f1, f2, g2,
      Conf.patchMap, Conf.lookup, Conf.insert]

/-- Claim C5, counter-evaluation: a named field carrying a yaml tag emits
the tag's first comma-separated component, and a named field whose tag has
no yaml part falls back to the lower-cased field name; but a named field
with no tag at all makes `processField` dereference the nil `field.Tag`
pointer — a panic (`none`), not a completed walk. -/
theorem processField_nil_tag_panics :
    Conftext.processField (.mk (some "Port") none (.ident "int" none) "") [] = none
  ∧ Conftext.processField (.mk (some "Host")
        (some (Conftext.goTag "yaml:\"host,omitempty\"")) (.ident "string" none) "") []
      = some [⟨[⟨"host", "string", ""⟩]⟩]
  ∧ Conftext.processField (.mk (some "Port") (some (Conftext.goTag "json:\"x\""))
        (.ident "int" none) "") []
      = some [⟨[⟨"port", "int", ""⟩]⟩] := by
  have h1 : Conftext.getYAMLTag (Conftext.goTag "yaml:\"host,omitempty\"") = "host" := rfl
  have h2 : Conftext.getYAMLTag (Conftext.goTag "json:\"x\"") = "" := rfl
  have t1 : Conftext.getTypeString (Conftext.GoType.ident "string" none) = "string" := rfl
  have t2 : Conftext.getTypeString (Conftext.GoType.ident "int" none) = "int" := rfl
  have l1 : GoStrings.toLower "Port" = "port" := rfl
  refine ⟨?_, ?_, ?_⟩
  · simp [Conftext.processField]
  · simp [Conftext.processField, Conftext.processStructFields, h1, t1,
      Conftext.isPrimitiveType, GoStrings.trimStar]
  · simp [Conftext.processField, Conftext.processStructFields, h2, t2, l1,
      Conftext.isPrimitiveType, GoStrings.trimStar]

/-- Claim C6: on the sample `Config` struct (nested `Database{Host, Port}`,
a top-level `Port`, and a `*Cache` pointer to an empty struct), the deriver
with prefix `MYAPP` emits exactly `MYAPP_DATABASE_HOST`,
`MYAPP_DATABASE_PORT`, `MYAPP_PORT`, in that order — no entry for
`Cache`. -/
theorem conftext_sample_env_keys :
    (Conftext.deriveEnvVars Conftext.configFields).map
        (List.map (Conftext.EnvVar.Path "MYAPP"))
      = some ["MYAPP_DATABASE_HOST", "MYAPP_DATABASE_PORT", "MYAPP_PORT"] := by
  have h1 : Conftext.getYAMLTag (Conftext.goTag "yaml:\"database\"") = "database" := rfl
  have h2 : Conftext.getYAMLTag (Conftext.goTag "yaml:\"port\"") = "port" := rfl
  have h3 : Conftext.getYAMLTag (Conftext.goTag "yaml:\"cache\"") = "cache" := rfl
  have h4 : Conftext.getYAMLTag (Conftext.goTag "yaml:\"host,omitempty\"") = "host" := rfl
  have p1 : Conftext.isPrimitiveType "string" = true := rfl
  have p2 : Conftext.isPrimitiveType "int" = true := rfl
  have p3 : Conftext.isPrimitiveType "Database" = false := rfl
  have p4 : Conftext.isPrimitiveType "Cache" = false := rfl
  have u1 : GoStrings.toUpper (String.intercalate "_" ["MYAPP", "database", "host"])
      = "MYAPP_DATABASE_HOST" := rfl
  have u2 : GoStrings.toUpper (String.intercalate "_" ["MYAPP", "database", "port"])
      = "MYAPP_DATABASE_PORT" := rfl
  have u3 : GoStrings.toUpper (String.intercalate "_" ["MYAPP", "port"])
      = "MYAPP_PORT" := rfl
  simp [Conftext.deriveEnvVars, Conftext.configFields, Conftext.databaseFields,
    Conftext.cacheFields, Conftext.processFieldList, Conftext.processField,
    Conftext.processStructFields, h1, h2, h3, h4, p1, p2, p3, p4,
    Conftext.getTypeString, Conftext.EnvVar.Path, u1, u2, u3]
